import Mathlib

/-!
Verification of the used-car listings scraper (awesomeapp.py).

The Python strings handled by the app are modelled as lists of characters
(List Char); ASCII is the modelled character range.  Machine-level details
that the claims do not touch (the pandas DataFrame layout, the exact
datetime rendering) are modelled by order-preserving abstractions that are
noted next to each definition.
-/

namespace CarApp

/-- Numeric value of an ASCII digit character. -/
def digitVal (c : Char) : Nat := c.toNat - 48

/-- Value of a list of ASCII digit characters read in base 10. -/
def digitsVal (l : List Char) : Nat := l.foldl (fun a c => 10 * a + digitVal c) 0

/-- Python str.strip: drop whitespace from both ends. -/
def stripChars (l : List Char) : List Char :=
  List.rdropWhile Char.isWhitespace (l.dropWhile Char.isWhitespace)

/-- Python s.replace(",", ""): remove every comma. -/
def removeSep (l : List Char) : List Char := l.filter (fun c => c ≠ ',')

/-- Digit tail of a Python integer literal: digits optionally separated by
single underscores (no leading, trailing or doubled underscore), folded onto
an accumulator that already holds the leading digits. -/
def pyDigitsAux : List Char → Nat → Option Nat
  | [], acc => some acc
  | [c], acc => if c.isDigit then some (10 * acc + digitVal c) else none
  | c :: c2 :: rest, acc =>
    if c.isDigit then pyDigitsAux (c2 :: rest) (10 * acc + digitVal c)
    else if c = '_' then
      if c2.isDigit then pyDigitsAux rest (10 * acc + digitVal c2) else none
    else none

/-- A nonempty digit sequence (Python int literal without sign). -/
def pyDigitSeq (l : List Char) : Option Nat :=
  match l with
  | [] => none
  | c :: rest => if c.isDigit then pyDigitsAux rest (digitVal c) else none

/-- Python int(s) on an already-stripped ASCII string: optional sign followed
by a nonempty digit sequence; anything else raises ValueError (none). -/
def pyIntCore (l : List Char) : Option Int :=
  match l with
  | [] => none
  | c :: rest =>
    if c = '+' then (pyDigitSeq rest).map (fun n => (n : Int))
    else if c = '-' then (pyDigitSeq rest).map (fun n => -(n : Int))
    else (pyDigitSeq (c :: rest)).map (fun n => (n : Int))

/-- parse_int from awesomeapp.py: remove commas, strip whitespace, return
none on the empty string, otherwise parse with int() and clamp below at 0;
a ValueError also yields none. -/
def parse_int (l : List Char) : Option Int :=
  if stripChars (removeSep l) = [] then none
  else (pyIntCore (stripChars (removeSep l))).map (fun n => max 0 n)

/-- brand_ok from awesomeapp.py: bool(brand.strip()). -/
def brand_ok (b : List Char) : Bool := !(stripChars b).isEmpty

/-- model_ok from awesomeapp.py: bool(model.strip()). -/
def model_ok (m : List Char) : Bool := !(stripChars m).isEmpty

/-- miles_ok from awesomeapp.py: max_mileage is not None. -/
def miles_ok (s : List Char) : Bool := (parse_int s).isSome

/-- ready from awesomeapp.py: brand_ok and model_ok and miles_ok. -/
def ready (b m s : List Char) : Bool := brand_ok b && model_ok m && miles_ok s

/-- Python str.lower restricted to the ASCII range. -/
def lowerStr (l : List Char) : List Char := l.map Char.toLower

/-- Decimal rendering of a natural number. -/
def natStr (n : Nat) : List Char := Nat.toDigits 10 n

/-- Decimal rendering of an integer, as Python str() would produce. -/
def intStr (i : Int) : List Char :=
  if i < 0 then '-' :: natStr i.natAbs else natStr i.natAbs

/-- base_url from awesomeapp.py: the search URL built from the lowercased
brand and model and the parsed maximum mileage. -/
def base_url (brand model : List Char) (mx : Int) : List Char :=
  ("https://www.carsome.my/buy-car/").toList ++ lowerStr brand ++
    ('/' :: lowerStr model) ++ ("?mileage=0,").toList ++ intStr mx

/-- Python str.isdigit restricted to ASCII: nonempty and all digits. -/
def strIsDigit (l : List Char) : Bool := !l.isEmpty && l.all Char.isDigit

/-- Pagination read at the end of get_max_pages: keep the visible labels
that are purely numeric, convert each with int(), and return their maximum,
or 1 when there is none. -/
def pageCount (labels : List (List Char)) : Nat :=
  match (labels.filter strIsDigit).map digitsVal with
  | [] => 1
  | p :: ps => ps.foldl Nat.max p

/-- One row of the cache table.  The timestamp column holds the rendered
UTC time "%Y-%m-%d_%H-%M-%S"; rendered timestamps compare (as SQLite TEXT)
exactly in chronological order, so the model keeps the timestamp as a
natural number ordered by that chronological order. -/
structure CacheEntry where
  brand : List Char
  model : List Char
  min_mileage : Option Int
  max_mileage : Int
  timestamp : Nat
  filename : List Char
  deriving DecidableEq, Repr

/-- WHERE clause of the cache SELECT: brand=? AND model=? AND max_mileage=?
with the raw (case-sensitive) brand and model strings. -/
def keyMatch (e : CacheEntry) (b m : List Char) (mx : Int) : Bool :=
  e.brand == b && e.model == m && e.max_mileage == mx

/-- Cache INSERT: append-only, no update, no uniqueness constraint. -/
def cacheInsert (db : List CacheEntry) (e : CacheEntry) : List CacheEntry :=
  db ++ [e]

/-- Later of two cache rows by timestamp, keeping the first on a tie. -/
def pickLater (best x : CacheEntry) : CacheEntry :=
  if best.timestamp < x.timestamp then x else best

/-- Cache SELECT ... ORDER BY timestamp DESC LIMIT 1: among the rows that
match the key, a row with maximal timestamp (ties resolved arbitrarily by
the store; the model keeps the first maximal row). -/
def cacheLookup (db : List CacheEntry) (b m : List Char) (mx : Int) : Option CacheEntry :=
  match db.filter (fun e => keyMatch e b m mx) with
  | [] => none
  | e :: es => some (es.foldl pickLater e)

/-- Default value of the min_mileage column of the cache table.  A freshly
created table (CREATE TABLE) declares the column with no DEFAULT clause, so
an INSERT that omits it stores NULL; only when an old table lacked the
column does the migration (ALTER TABLE ... ADD COLUMN min_mileage INTEGER
DEFAULT 0) give it default 0. -/
def minMileageDefault (oldTableLacksMinCol : Bool) : Option Int :=
  if oldTableLacksMinCol then some 0 else none

/-- Observable events of one Scrape Now run, in program order. -/
inductive Event where
  | fetchPage (i : Nat)
  | captureTs
  | warnNoResults
  | writeFile
  | insertCache
  deriving DecidableEq, Repr

/-- One displayed row: the 1-based row number inserted as column "No.", the
extracted record, and the shared run timestamp column. -/
structure Row (α : Type) where
  no : Nat
  record : α
  ts : Nat
  deriving DecidableEq, Repr

/-- Result of one Scrape Now run as shown to the user. -/
inductive Outcome (α : Type) where
  | error (msg : String)
  | noResults
  | success (rows : List (Row α)) (fn : List Char)
  deriving DecidableEq, Repr

/-- Durable state touched by a run: CSV files on disk, the cache table, and
the default value carried by the min_mileage column of its schema. -/
structure Store (α : Type) where
  files : List (List Char × List (Row α))
  cache : List CacheEntry
  minDefault : Option Int
  deriving DecidableEq, Repr

/-- Store obtained by running the startup against a fresh database. -/
def freshStore : Store Nat :=
  { files := [], cache := [], minDefault := minMileageDefault false }

/-- Page loop of the Scrape Now handler: fetch pages in order, extend the
accumulated listing list with each page, and stop at the first failing
extraction call (st.stop).  The returned trace records the attempted
fetches in order. -/
def fetchPagesTr {α : Type} (fetch : Nat → Except String (List α)) :
    List Nat → Except String (List α) × List Event
  | [] => (Except.ok [], [])
  | p :: rest =>
    match fetch p with
    | Except.error e => (Except.error e, [Event.fetchPage p])
    | Except.ok l =>
      let pr := fetchPagesTr fetch rest
      (pr.1.map (fun ls => l ++ ls), Event.fetchPage p :: pr.2)

/-- Row numbering of the aggregated DataFrame: df.insert of column "No."
with values 1..len, with the single shared timestamp column. -/
def numberRows {α : Type} (all : List α) (ts : Nat) : List (Row α) :=
  ((List.range' 1 all.length).zip all).map (fun pr => ⟨pr.1, pr.2, ts⟩)

/-- Output CSV file name listings_brand_model_uptoMAX_TS.csv, with the raw
brand and model strings and the rendered timestamp. -/
def fileName (brand model : List Char) (mx : Int) (ts : Nat) : List Char :=
  ("listings_").toList ++ brand ++ ('_' :: model) ++ ("_upto").toList ++
    intStr mx ++ ('_' :: natStr ts) ++ (".csv").toList

/-- Cache row written by the INSERT of the Scrape Now handler: the INSERT
names only brand, model, max_mileage, timestamp and filename, so the
min_mileage column receives the default of the schema in force. -/
def mkEntry (brand model : List Char) (mx : Int) (ts : Nat) (fn : List Char)
    (dflt : Option Int) : CacheEntry :=
  ⟨brand, model, dflt, mx, ts, fn⟩

/-- Scrape Now handler, from the page loop to the cache commit: run the
page loop over pages 1..n; on a failed extraction report the error and stop
with the store untouched; otherwise capture the single UTC timestamp, and
either warn that there are no listings (empty concatenation: nothing is
written) or number the rows, write the CSV file and insert the cache row. -/
def scrapeNow {α : Type} (fetch : Nat → Except String (List α)) (n ts : Nat)
    (brand model : List Char) (mx : Int) (store : Store α) :
    Store α × Outcome α × List Event :=
  let pr := fetchPagesTr fetch (List.range' 1 n)
  match pr.1 with
  | Except.error e => (store, Outcome.error e, pr.2)
  | Except.ok all =>
    if all.isEmpty then
      (store, Outcome.noResults, pr.2 ++ [Event.captureTs, Event.warnNoResults])
    else
      let rows := numberRows all ts
      let fn := fileName brand model mx ts
      (⟨store.files ++ [(fn, rows)],
        store.cache ++ [mkEntry brand model mx ts fn store.minDefault],
        store.minDefault⟩,
       Outcome.success rows fn,
       pr.2 ++ [Event.captureTs, Event.writeFile, Event.insertCache])

/-- Environment of one get_max_pages call: which of the browser-automation
steps fail.  The dismiss step and the two click steps are wrapped in
try/except in the source, so their failures are absorbed (the fallback JS
path runs) and do not abort the call; every listed timeout or navigation
failure is raised by a wait that no handler catches. -/
structure DiscoveryEnv where
  navFails : Bool
  dismissFails : Bool
  toggleWaitTimeout : Bool
  toggleClickableTimeout : Bool
  toggleClickBlocked : Bool
  inputsWaitTimeout : Bool
  inputBlocked : Bool
  applyWaitTimeout : Bool
  applyClickableTimeout : Bool
  applyClickBlocked : Bool
  paginationWaitTimeout : Bool
  deriving DecidableEq, Repr

/-- Control flow of get_max_pages: the driver is created first, each
uncaught failure propagates immediately out of the function, and
driver.quit() is reached only after the pagination read succeeds.  The
returned Bool records whether quit was executed. -/
def get_max_pages_run (env : DiscoveryEnv) (labels : List (List Char)) :
    Except String Nat × Bool :=
  if env.navFails then (Except.error ("navigation failed"), false)
  else if env.toggleWaitTimeout then
    (Except.error ("timeout: mileage toggle not present"), false)
  else if env.toggleClickableTimeout then
    (Except.error ("timeout: mileage toggle not clickable"), false)
  else if env.inputsWaitTimeout then
    (Except.error ("timeout: mileage inputs not present"), false)
  else if env.applyWaitTimeout then
    (Except.error ("timeout: apply button not present"), false)
  else if env.applyClickableTimeout then
    (Except.error ("timeout: apply button not clickable"), false)
  else if env.paginationWaitTimeout then
    (Except.error ("timeout: pagination nav not present"), false)
  else (Except.ok (pageCount labels), true)

/-- Environment in which every automation step succeeds. -/
def envOk : DiscoveryEnv :=
  ⟨false, false, false, false, false, false, false, false, false, false, false⟩

/-- Environment in which only the final pagination wait times out. -/
def envPaginationTimeout : DiscoveryEnv :=
  ⟨false, false, false, false, false, false, false, false, false, false, true⟩

instance {ε α : Type} [DecidableEq ε] [DecidableEq α] : DecidableEq (Except ε α) := fun x y =>
  match x, y with
  | Except.ok a, Except.ok b =>
    if h : a = b then Decidable.isTrue (by rw [h])
    else Decidable.isFalse (by intro he; cases he; exact h rfl)
  | Except.error a, Except.error b =>
    if h : a = b then Decidable.isTrue (by rw [h])
    else Decidable.isFalse (by intro he; cases he; exact h rfl)
  | Except.ok _, Except.error _ => Decidable.isFalse (by intro he; cases he)
  | Except.error _, Except.ok _ => Decidable.isFalse (by intro he; cases he)

/- ### Helper lemmas about stripping and digit parsing -/

lemma dropWhile_append_of_forall {p : Char → Bool} {w l : List Char}
    (h : ∀ c ∈ w, p c = true) : (w ++ l).dropWhile p = l.dropWhile p := by
  induction w with
  | nil => rfl
  | cons c rest ih =>
    have hc : p c = true := h c (by simp)
    simp only [List.cons_append, List.dropWhile_cons, hc, if_true]
    exact ih (fun x hx => h x (by simp [hx]))

lemma dropWhile_eq_self_of_forall {p : Char → Bool} {l : List Char}
    (h : ∀ c ∈ l, p c = false) : l.dropWhile p = l := by
  cases l with
  | nil => rfl
  | cons c rest =>
    have hc : p c = false := h c (by simp)
    simp [List.dropWhile_cons, hc]

lemma dropWhile_append_of_ne_nil {p : Char → Bool} {l : List Char} (v : List Char)
    (h : l.dropWhile p ≠ []) : (l ++ v).dropWhile p = l.dropWhile p ++ v := by
  induction l with
  | nil => exact absurd rfl h
  | cons c rest ih =>
    by_cases hc : p c = true
    · simp only [List.dropWhile_cons, hc, if_true] at h ⊢
      simpa only [List.cons_append, List.dropWhile_cons, hc, if_true] using ih h
    · have hc' : p c = false := by
        cases hpc : p c
        · rfl
        · exact absurd hpc hc
      simp [List.cons_append, List.dropWhile_cons, hc']

lemma rdropWhile_append_of_forall {p : Char → Bool} {v : List Char} (l : List Char)
    (h : ∀ c ∈ v, p c = true) : List.rdropWhile p (l ++ v) = List.rdropWhile p l := by
  unfold List.rdropWhile
  rw [List.reverse_append]
  rw [dropWhile_append_of_forall (fun c hc => h c (by simpa using hc))]

lemma stripChars_eq_self {l : List Char} (h : ∀ c ∈ l, c.isWhitespace = false) :
    stripChars l = l := by
  unfold stripChars
  rw [dropWhile_eq_self_of_forall h]
  exact List.rdropWhile_eq_self_iff.mpr
    (fun hl hws => by
      have := h (l.getLast hl) (List.getLast_mem hl)
      rw [hws] at this
      exact Bool.noConfusion this)

lemma stripChars_append_left {w : List Char} (l : List Char)
    (h : ∀ c ∈ w, c.isWhitespace = true) : stripChars (w ++ l) = stripChars l := by
  unfold stripChars
  rw [dropWhile_append_of_forall h]

lemma stripChars_append_right {v : List Char} (l : List Char)
    (h : ∀ c ∈ v, c.isWhitespace = true) : stripChars (l ++ v) = stripChars l := by
  unfold stripChars
  by_cases hd : l.dropWhile Char.isWhitespace = []
  · have hws : ∀ c ∈ l, c.isWhitespace = true := List.dropWhile_eq_nil_iff.mp hd
    have : (l ++ v).dropWhile Char.isWhitespace = [] := by
      refine List.dropWhile_eq_nil_iff.mpr ?_
      intro x hx
      rcases List.mem_append.mp hx with hx | hx
      · exact hws x hx
      · exact h x hx
    rw [this, hd]
  · rw [dropWhile_append_of_ne_nil v hd]
    exact rdropWhile_append_of_forall _ h

lemma mem_of_mem_stripChars {c : Char} {l : List Char} (h : c ∈ stripChars l) : c ∈ l := by
  unfold stripChars at h
  have hpre : List.rdropWhile Char.isWhitespace (l.dropWhile Char.isWhitespace) <+:
      l.dropWhile Char.isWhitespace := List.rdropWhile_prefix _ _
  have h1 := hpre.subset h
  exact (List.dropWhile_suffix Char.isWhitespace).subset h1

lemma digit_not_ws {c : Char} (h : c.isDigit = true) : c.isWhitespace = false := by
  cases hw : c.isWhitespace
  · rfl
  · have : ((c = ' ' ∨ c = '\t') ∨ c = '\x0d') ∨ c = '\n' := by
      simpa [Char.isWhitespace, decide_eq_true_eq] using hw
    rcases this with ((h1 | h1) | h1) | h1 <;> (rw [h1] at h; exact absurd h (by decide))

lemma digit_ne_comma {c : Char} (h : c.isDigit = true) : c ≠ ',' := by
  intro he
  rw [he] at h
  exact absurd h (by decide)

lemma digit_ne_underscore {c : Char} (h : c.isDigit = true) : c ≠ '_' := by
  intro he
  rw [he] at h
  exact absurd h (by decide)

lemma digit_ne_plus {c : Char} (h : c.isDigit = true) : c ≠ '+' := by
  intro he
  rw [he] at h
  exact absurd h (by decide)

lemma digit_ne_minus {c : Char} (h : c.isDigit = true) : c ≠ '-' := by
  intro he
  rw [he] at h
  exact absurd h (by decide)

lemma ws_ne_comma {c : Char} (h : c.isWhitespace = true) : c ≠ ',' := by
  intro he
  rw [he] at h
  exact absurd h (by decide)

lemma removeSep_eq_filter_digits {l : List Char}
    (h : ∀ c ∈ l, c.isDigit = true ∨ c = ',') :
    removeSep l = l.filter Char.isDigit := by
  unfold removeSep
  refine List.filter_congr ?_
  intro c hc
  rcases h c hc with hd | hrfl
  · simp [digit_ne_comma hd, hd]
  · subst hrfl
    decide

lemma removeSep_eq_self_of_ws {w : List Char} (h : ∀ c ∈ w, c.isWhitespace = true) :
    removeSep w = w := by
  unfold removeSep
  refine List.filter_eq_self.mpr ?_
  intro c hc
  simpa using ws_ne_comma (h c hc)

lemma pyDigitsAux_all_digits :
    ∀ (d : List Char) (acc : Nat), (∀ c ∈ d, c.isDigit = true) →
      pyDigitsAux d acc = some (d.foldl (fun a c => 10 * a + digitVal c) acc) := by
  intro d
  induction d with
  | nil => intro acc _; rfl
  | cons c rest ih =>
    intro acc h
    have hc : c.isDigit = true := h c (by simp)
    cases rest with
    | nil => simp [pyDigitsAux, hc]
    | cons c2 rest2 =>
      simp only [pyDigitsAux, hc, if_true, List.foldl_cons]
      exact ih _ (fun x hx => h x (by simp [hx]))

lemma pyDigitSeq_all_digits {d : List Char} (hne : d ≠ [])
    (h : ∀ c ∈ d, c.isDigit = true) : pyDigitSeq d = some (digitsVal d) := by
  cases d with
  | nil => exact absurd rfl hne
  | cons c rest =>
    have hc : c.isDigit = true := h c (by simp)
    rw [pyDigitSeq, if_pos hc,
      pyDigitsAux_all_digits rest (digitVal c) (fun x hx => h x (by simp [hx]))]
    have : digitsVal (c :: rest) = rest.foldl (fun a c => 10 * a + digitVal c) (digitVal c) := by
      simp [digitsVal, List.foldl_cons]
    rw [this]

lemma pyIntCore_all_digits {d : List Char} (hne : d ≠ [])
    (h : ∀ c ∈ d, c.isDigit = true) : pyIntCore d = some ((digitsVal d : Nat) : Int) := by
  cases d with
  | nil => exact absurd rfl hne
  | cons c rest =>
    have hc : c.isDigit = true := h c (by simp)
    rw [pyIntCore, if_neg (digit_ne_plus hc), if_neg (digit_ne_minus hc),
      pyDigitSeq_all_digits (by simp) h]
    rfl

lemma pyDigitSeq_no_digit {d : List Char} (h : ∀ c ∈ d, c.isDigit = false) :
    pyDigitSeq d = none := by
  cases d with
  | nil => rfl
  | cons c rest =>
    rw [pyDigitSeq, if_neg]
    rw [h c (by simp)]
    exact Bool.false_ne_true

lemma pyIntCore_no_digit {d : List Char} (h : ∀ c ∈ d, c.isDigit = false) :
    pyIntCore d = none := by
  cases d with
  | nil => rfl
  | cons c rest =>
    have hrest : ∀ x ∈ rest, x.isDigit = false := fun x hx => h x (by simp [hx])
    rw [pyIntCore]
    by_cases hp : c = '+'
    · rw [if_pos hp, pyDigitSeq_no_digit hrest]; rfl
    · rw [if_neg hp]
      by_cases hm : c = '-'
      · rw [if_pos hm, pyDigitSeq_no_digit hrest]; rfl
      · rw [if_neg hm, pyDigitSeq_no_digit h]; rfl

lemma removeSep_append (a b : List Char) :
    removeSep (a ++ b) = removeSep a ++ removeSep b := by
  unfold removeSep
  exact List.filter_append a b

/-- C4: mileage parsing trims the input, strips thousands separators and
parses the rest as a non-negative integer: a string made of digits and
comma separators (with at least one digit) parses to the value of its
digits with the separators removed; a string with no digit at all parses
to none (invalid, not zero); and surrounding whitespace never changes the
result. -/
theorem parse_int_spec :
    (∀ l : List Char, (∀ c ∈ l, c.isDigit = true ∨ c = ',') →
      (∃ c ∈ l, c.isDigit = true) →
      parse_int l = some ((digitsVal (l.filter Char.isDigit) : Nat) : Int)) ∧
    (∀ l : List Char, (∀ c ∈ l, c.isDigit = false) → parse_int l = none) ∧
    (∀ (w1 w2 l : List Char), (∀ c ∈ w1, c.isWhitespace = true) →
      (∀ c ∈ w2, c.isWhitespace = true) →
      parse_int (w1 ++ l ++ w2) = parse_int l) := by
  refine ⟨?_, ?_, ?_⟩
  · intro l hall hex
    have hd : ∀ c ∈ l.filter Char.isDigit, c.isDigit = true :=
      fun c hc => (List.mem_filter.mp hc).2
    have hne : l.filter Char.isDigit ≠ [] := by
      rcases hex with ⟨c, hc, hdig⟩
      intro hnil
      have hmem : c ∈ l.filter Char.isDigit := List.mem_filter.mpr ⟨hc, hdig⟩
      rw [hnil] at hmem
      exact absurd hmem (List.not_mem_nil c)
    unfold parse_int
    rw [removeSep_eq_filter_digits hall,
      stripChars_eq_self (fun c hc => digit_not_ws (hd c hc)),
      if_neg hne, pyIntCore_all_digits hne hd]
    simp [max_eq_right (Int.ofNat_nonneg (digitsVal (l.filter Char.isDigit)))]
  · intro l h
    have ht : ∀ c ∈ stripChars (removeSep l), c.isDigit = false := by
      intro c hc
      have h1 : c ∈ removeSep l := mem_of_mem_stripChars hc
      exact h c (List.mem_filter.mp h1).1
    unfold parse_int
    by_cases hempty : stripChars (removeSep l) = []
    · rw [if_pos hempty]
    · rw [if_neg hempty, pyIntCore_no_digit ht]
      rfl
  · intro w1 w2 l h1 h2
    have key : stripChars (removeSep (w1 ++ l ++ w2)) = stripChars (removeSep l) := by
      rw [removeSep_append, removeSep_append, removeSep_eq_self_of_ws h1,
        removeSep_eq_self_of_ws h2, List.append_assoc,
        stripChars_append_left _ h1, stripChars_append_right _ h2]
    unfold parse_int
    rw [key]

/-- Witness: parse_int on concrete inputs via parse_int_spec. -/
theorem parse_int_spec_witness :
    parse_int (("1,000").toList) =
      some ((digitsVal (((("1,000").toList)).filter Char.isDigit) : Nat) : Int) ∧
    parse_int (("abc").toList) = none ∧
    parse_int (((" ").toList) ++ (("12").toList) ++ ((" ").toList)) =
      parse_int (("12").toList) :=
  ⟨parse_int_spec.1 _ (by decide) (by decide),
   parse_int_spec.2.1 _ (by decide),
   parse_int_spec.2.2 _ _ _ (by decide) (by decide)⟩

/-- C5: readiness holds exactly when the brand is nonempty after trimming,
the model is nonempty after trimming, and the mileage parses as valid; the
equivalence settles all eight valid/invalid combinations at once. -/
theorem ready_iff (b m s : List Char) :
    ready b m s = true ↔
      (stripChars b ≠ [] ∧ stripChars m ≠ [] ∧ parse_int s ≠ none) := by
  simp only [ready, brand_ok, model_ok, miles_ok, List.isEmpty_iff,
    Option.isSome_iff_ne_none, Bool.and_eq_true, Bool.not_eq_true',
    List.isEmpty_eq_false, ne_eq, and_assoc]

/-- Witness: a ready concrete input state via ready_iff. -/
theorem ready_iff_witness :
    ready (("Perodua").toList) (("Myvi").toList) (("50000").toList) = true :=
  (ready_iff _ _ _).mpr (by decide)

/- ### Helper lemmas about the cache store -/

lemma foldl_pickLater_spec :
    ∀ (es : List CacheEntry) (e : CacheEntry),
      (es.foldl pickLater e = e ∨ es.foldl pickLater e ∈ es) ∧
      e.timestamp ≤ (es.foldl pickLater e).timestamp ∧
      ∀ x ∈ es, x.timestamp ≤ (es.foldl pickLater e).timestamp := by
  intro es
  induction es with
  | nil => intro e; exact ⟨Or.inl rfl, le_refl _, by simp⟩
  | cons a rest ih =>
    intro e
    obtain ⟨hmem, hle, hall⟩ := ih (pickLater e a)
    have hcases : pickLater e a = e ∨ pickLater e a = a := by
      unfold pickLater
      by_cases hc : e.timestamp < a.timestamp
      · rw [if_pos hc]; exact Or.inr rfl
      · rw [if_neg hc]; exact Or.inl rfl
    have hea : e.timestamp ≤ (pickLater e a).timestamp := by
      unfold pickLater
      by_cases hc : e.timestamp < a.timestamp
      · rw [if_pos hc]; exact le_of_lt hc
      · rw [if_neg hc]
    have haa : a.timestamp ≤ (pickLater e a).timestamp := by
      unfold pickLater
      by_cases hc : e.timestamp < a.timestamp
      · rw [if_pos hc]
      · rw [if_neg hc]; exact le_of_not_lt hc
    rw [List.foldl_cons]
    refine ⟨?_, le_trans hea hle, ?_⟩
    · rcases hmem with h | h
      · rcases hcases with h2 | h2
        · exact Or.inl (by rw [h, h2])
        · exact Or.inr (by rw [h, h2]; exact List.mem_cons_self a rest)
      · exact Or.inr (List.mem_cons_of_mem a h)
    · intro x hx
      rcases List.mem_cons.mp hx with hx1 | hx1
      · rw [hx1]; exact le_trans haa hle
      · exact hall x hx1

lemma cacheLookup_some_spec {db : List CacheEntry} {b m : List Char} {mx : Int}
    {e : CacheEntry} (h : cacheLookup db b m mx = some e) :
    e ∈ db ∧ keyMatch e b m mx = true ∧
    ∀ x ∈ db, keyMatch x b m mx = true → x.timestamp ≤ e.timestamp := by
  unfold cacheLookup at h
  cases hf : db.filter (fun x => keyMatch x b m mx) with
  | nil => rw [hf] at h; exact absurd h (by simp)
  | cons e0 es =>
    rw [hf] at h
    have he : e = es.foldl pickLater e0 := (Option.some.inj h).symm
    obtain ⟨hmem, hle0, hall⟩ := foldl_pickLater_spec es e0
    have hmem' : e ∈ e0 :: es := by
      rw [he]
      rcases hmem with h1 | h1
      · rw [h1]; exact List.mem_cons_self e0 es
      · exact List.mem_cons_of_mem e0 h1
    have hefilter : e ∈ db.filter (fun x => keyMatch x b m mx) := by
      rw [hf]; exact hmem'
    have hedb := List.mem_filter.mp hefilter
    refine ⟨hedb.1, hedb.2, ?_⟩
    intro x hx hkx
    have hxf : x ∈ e0 :: es := by
      rw [← hf]; exact List.mem_filter.mpr ⟨hx, hkx⟩
    rcases List.mem_cons.mp hxf with hx1 | hx1
    · rw [hx1, he]; exact hle0
    · rw [he]; exact hall x hx1

lemma cacheLookup_none_iff {db : List CacheEntry} {b m : List Char} {mx : Int} :
    cacheLookup db b m mx = none ↔ ∀ e ∈ db, keyMatch e b m mx = false := by
  constructor
  · intro h e he
    cases hkb : keyMatch e b m mx with
    | false => rfl
    | true =>
      exfalso
      have hmem : e ∈ db.filter (fun x => keyMatch x b m mx) :=
        List.mem_filter.mpr ⟨he, hkb⟩
      unfold cacheLookup at h
      cases hf : db.filter (fun x => keyMatch x b m mx) with
      | nil => rw [hf] at hmem; exact absurd hmem (List.not_mem_nil e)
      | cons e0 es => rw [hf] at h; exact absurd h (by simp)
  · intro h
    have hf : db.filter (fun x => keyMatch x b m mx) = [] := by
      rw [List.filter_eq_nil_iff]
      intro a ha
      rw [h a ha]
      exact Bool.noConfusion
    unfold cacheLookup
    rw [hf]

/-- C2: a cache lookup keyed by brand, model and max mileage returns none
exactly when no stored entry matches the key, and otherwise returns a
matching stored entry whose timestamp is maximal among the matching
entries; in particular, after two inserts for the same key with timestamps
T1 < T2 the lookup returns the second entry. -/
theorem cache_lookup_latest :
    (∀ (db : List CacheEntry) (b m : List Char) (mx : Int),
      cacheLookup db b m mx = none ↔ ∀ e ∈ db, keyMatch e b m mx = false) ∧
    (∀ (db : List CacheEntry) (b m : List Char) (mx : Int) (e : CacheEntry),
      cacheLookup db b m mx = some e →
        e ∈ db ∧ keyMatch e b m mx = true ∧
        ∀ x ∈ db, keyMatch x b m mx = true → x.timestamp ≤ e.timestamp) ∧
    (∀ (db : List CacheEntry) (e1 e2 : CacheEntry) (b m : List Char) (mx : Int),
      keyMatch e1 b m mx = true → keyMatch e2 b m mx = true →
      (∀ x ∈ db, keyMatch x b m mx = false) →
      e1.timestamp < e2.timestamp →
      cacheLookup (cacheInsert (cacheInsert db e1) e2) b m mx = some e2) := by
  refine ⟨fun db b m mx => cacheLookup_none_iff,
    fun db b m mx e h => cacheLookup_some_spec h, ?_⟩
  intro db e1 e2 b m mx hk1 hk2 hnone hlt
  unfold cacheInsert cacheLookup
  have hdb : db.filter (fun x => keyMatch x b m mx) = [] := by
    rw [List.filter_eq_nil_iff]
    intro a ha
    rw [hnone a ha]
    exact Bool.noConfusion
  have hf : (db ++ [e1] ++ [e2]).filter (fun x => keyMatch x b m mx) = [e1, e2] := by
    rw [List.filter_append, List.filter_append, hdb]
    simp [hk1, hk2]
  rw [hf]
  simp [pickLater, hlt]

/-- Witness: two same-key inserts with timestamps 1 < 2; the lookup returns
the second entry, via cache_lookup_latest. -/
theorem cache_lookup_latest_witness :
    cacheLookup
      (cacheInsert
        (cacheInsert []
          ⟨("Perodua").toList, ("Myvi").toList, none, 50000, 1, ("f1.csv").toList⟩)
        ⟨("Perodua").toList, ("Myvi").toList, none, 50000, 2, ("f2.csv").toList⟩)
      (("Perodua").toList) (("Myvi").toList) 50000 =
      some ⟨("Perodua").toList, ("Myvi").toList, none, 50000, 2, ("f2.csv").toList⟩ :=
  cache_lookup_latest.2.2 [] _ _ _ _ _ (by decide) (by decide)
    (by intro x hx; exact absurd hx (List.not_mem_nil x)) (by decide)

/-- C10: two ready input states whose brand and model differ only in letter
case produce the same search URL (the URL lowercases both), yet the cache
is keyed by the raw case-sensitive strings, so an entry inserted under one
state is never the entry returned by a lookup under the other. -/
theorem case_fold_url_vs_cache (b1 m1 b2 m2 s : List Char) (mx : Int)
    (hb : lowerStr b1 = lowerStr b2) (hm : lowerStr m1 = lowerStr m2)
    (hne : ¬(b1 = b2 ∧ m1 = m2))
    (_hr1 : ready b1 m1 s = true) (_hr2 : ready b2 m2 s = true)
    (_hmx : parse_int s = some mx) :
    base_url b1 m1 mx = base_url b2 m2 mx ∧
    ∀ (db : List CacheEntry) (e : CacheEntry),
      cacheLookup db b2 m2 mx = some e → ¬(e.brand = b1 ∧ e.model = m1) := by
  constructor
  · unfold base_url
    rw [hb, hm]
  · intro db e hlook hcon
    obtain ⟨heb, hem⟩ := hcon
    obtain ⟨_, hk, _⟩ := cacheLookup_some_spec hlook
    have h2 : e.brand = b2 ∧ e.model = m2 := by
      have := hk
      unfold keyMatch at this
      simp only [Bool.and_eq_true, beq_iff_eq] at this
      exact ⟨this.1.1, this.1.2⟩
    exact hne ⟨heb.symm.trans h2.1, hem.symm.trans h2.2⟩

/-- Witness: Perodua/Myvi versus perodua/myvi give the same URL, via
case_fold_url_vs_cache. -/
theorem case_fold_url_vs_cache_witness :
    base_url (("Perodua").toList) (("Myvi").toList) 50000 =
      base_url (("perodua").toList) (("myvi").toList) 50000 :=
  (case_fold_url_vs_cache (("Perodua").toList) (("Myvi").toList)
    (("perodua").toList) (("myvi").toList) (("50000").toList) 50000
    (by decide) (by decide) (by decide) (by decide) (by decide) (by decide)).1

/- ### Helper lemma about folded maxima -/

lemma foldl_max_spec :
    ∀ (ps : List Nat) (p : Nat),
      (ps.foldl Nat.max p = p ∨ ps.foldl Nat.max p ∈ ps) ∧
      p ≤ ps.foldl Nat.max p ∧
      ∀ v ∈ ps, v ≤ ps.foldl Nat.max p := by
  intro ps
  induction ps with
  | nil => intro p; exact ⟨Or.inl rfl, le_refl _, by simp⟩
  | cons a rest ih =>
    intro p
    obtain ⟨hmem, hle, hall⟩ := ih (Nat.max p a)
    rw [List.foldl_cons]
    have hpa : p ≤ Nat.max p a := Nat.le_max_left p a
    have haa : a ≤ Nat.max p a := Nat.le_max_right p a
    have hcases : Nat.max p a = p ∨ Nat.max p a = a := by
      by_cases h : p ≤ a
      · exact Or.inr (Nat.max_eq_right h)
      · exact Or.inl (Nat.max_eq_left (le_of_not_le h))
    refine ⟨?_, le_trans hpa hle, ?_⟩
    · rcases hmem with h | h
      · rcases hcases with h2 | h2
        · exact Or.inl (by rw [h, h2])
        · exact Or.inr (by rw [h, h2]; exact List.mem_cons_self a rest)
      · exact Or.inr (List.mem_cons_of_mem a h)
    · intro v hv
      rcases List.mem_cons.mp hv with h1 | h1
      · rw [h1]; exact le_trans haa hle
      · exact hall v h1

/-- Counterexample to C6: the pagination label "0" is purely numeric, the
code returns its value 0, and 0 is not a positive page count. -/
theorem pageCount_zero_label :
    strIsDigit (("0").toList) = true ∧ pageCount [("0").toList] = 0 := by decide

/-- C6 (amended): the discoverer returns the maximum purely-numeric label
value, or 1 when no label is purely numeric; the result is positive
whenever every purely-numeric label has a nonzero value, but a label "0"
makes the returned count 0 rather than positive. -/
theorem pageCount_spec (labels : List (List Char)) :
    ((labels.filter strIsDigit).map digitsVal = [] → pageCount labels = 1) ∧
    ((labels.filter strIsDigit).map digitsVal ≠ [] →
      pageCount labels ∈ (labels.filter strIsDigit).map digitsVal ∧
      ∀ v ∈ (labels.filter strIsDigit).map digitsVal, v ≤ pageCount labels) ∧
    ((∀ v ∈ (labels.filter strIsDigit).map digitsVal, 0 < v) →
      0 < pageCount labels) := by
  cases hf : (labels.filter strIsDigit).map digitsVal with
  | nil =>
    have h1 : pageCount labels = 1 := by unfold pageCount; rw [hf]
    exact ⟨fun _ => h1, fun h => absurd rfl h, fun _ => by rw [h1]; decide⟩
  | cons p ps =>
    have h1 : pageCount labels = ps.foldl Nat.max p := by unfold pageCount; rw [hf]
    obtain ⟨hmem, hle, hall⟩ := foldl_max_spec ps p
    refine ⟨fun hcon => absurd hcon (List.cons_ne_nil p ps), fun _ => ⟨?_, ?_⟩, ?_⟩
    · rw [h1]
      rcases hmem with h | h
      · rw [h]; exact List.mem_cons_self p ps
      · exact List.mem_cons_of_mem p h
    · intro v hv
      rw [h1]
      rcases List.mem_cons.mp hv with h | h
      · rw [h]; exact hle
      · exact hall v h
    · intro hpos
      have hp : 0 < p := hpos p (List.mem_cons_self p ps)
      rw [h1]
      exact lt_of_lt_of_le hp hle

/-- Witness: concrete labels 12, 3 and a non-numeric one, via pageCount_spec. -/
theorem pageCount_spec_witness :
    (12 : Nat) ≤ pageCount [("12").toList, ("3").toList, ("x").toList] ∧
    0 < pageCount [("12").toList, ("3").toList, ("x").toList] :=
  ⟨((pageCount_spec [("12").toList, ("3").toList, ("x").toList]).2.1
      (by decide)).2 12 (by decide),
   (pageCount_spec [("12").toList, ("3").toList, ("x").toList]).2.2 (by decide)⟩

/-- Counterexample to C7: when the final pagination wait times out, the
call exits on the error path and driver.quit() is never executed, so the
automation session outlives the failed call. -/
theorem get_max_pages_leak :
    (get_max_pages_run envPaginationTimeout []).1 =
      Except.error ("timeout: pagination nav not present") ∧
    (get_max_pages_run envPaginationTimeout []).2 = false := by decide

/-- C7 (amended): the automation session is terminated on the normal-return
path only: quit runs exactly when the call returns a page count, and on
every failing exit path (navigation failure or any uncaught wait timeout)
the session is not quit. -/
theorem get_max_pages_quit_iff (env : DiscoveryEnv) (labels : List (List Char)) :
    (get_max_pages_run env labels).2 = true ↔
      (get_max_pages_run env labels).1 = Except.ok (pageCount labels) := by
  rcases env with ⟨nav, dis, twt, tct, tcb, iwt, ib, awt, act, acb, pwt⟩
  unfold get_max_pages_run
  cases nav <;> cases twt <;> cases tct <;> cases iwt <;> cases awt <;>
    cases act <;> cases pwt <;> simp

/-- Witness: with every automation step succeeding the session is quit and
the page count is returned, via get_max_pages_quit_iff. -/
theorem get_max_pages_quit_iff_witness :
    (get_max_pages_run envOk [("2").toList]).1 =
      Except.ok (pageCount [("2").toList]) :=
  (get_max_pages_quit_iff envOk [("2").toList]).mp (by decide)

/- ### Helper lemmas about the Scrape Now model -/

lemma fetchPagesTr_ok {α : Type} (fetch : Nat → Except String (List α)) (L : Nat → List α) :
    ∀ pages : List Nat, (∀ p ∈ pages, fetch p = Except.ok (L p)) →
      fetchPagesTr fetch pages =
        (Except.ok (pages.map L).flatten, pages.map Event.fetchPage) := by
  intro pages
  induction pages with
  | nil => intro _; rfl
  | cons p rest ih =>
    intro h
    have hp : fetch p = Except.ok (L p) := h p (by simp)
    have hr := ih (fun x hx => h x (by simp [hx]))
    simp only [fetchPagesTr, hp, hr, List.map_cons, List.flatten_cons, Except.map]

lemma fetchPagesTr_error {α : Type} (fetch : Nat → Except String (List α)) :
    ∀ pages : List Nat, (∃ p ∈ pages, ∃ e, fetch p = Except.error e) →
      ∃ msg, (fetchPagesTr fetch pages).1 = Except.error msg := by
  intro pages
  induction pages with
  | nil => intro h; rcases h with ⟨p, hp, _⟩; exact absurd hp (List.not_mem_nil p)
  | cons p rest ih =>
    intro h
    cases hfp : fetch p with
    | error e => exact ⟨e, by simp only [fetchPagesTr, hfp]⟩
    | ok l =>
      have hrest : ∃ q ∈ rest, ∃ e, fetch q = Except.error e := by
        rcases h with ⟨q, hq, e, he⟩
        rcases List.mem_cons.mp hq with h1 | h1
        · rw [h1, hfp] at he; exact absurd he (by simp)
        · exact ⟨q, h1, e, he⟩
      rcases ih hrest with ⟨msg, hmsg⟩
      exact ⟨msg, by simp only [fetchPagesTr, hfp, hmsg, Except.map]⟩

lemma fetchPagesTr_trace_fetches {α : Type} (fetch : Nat → Except String (List α)) :
    ∀ pages : List Nat, ∀ ev ∈ (fetchPagesTr fetch pages).2, ∃ i, ev = Event.fetchPage i := by
  intro pages
  induction pages with
  | nil => intro ev hev; exact absurd hev (by simp [fetchPagesTr])
  | cons p rest ih =>
    intro ev hev
    cases hfp : fetch p with
    | error e =>
      rw [show (fetchPagesTr fetch (p :: rest)).2 = [Event.fetchPage p] by
        simp only [fetchPagesTr, hfp]] at hev
      rcases List.mem_singleton.mp hev with h1
      exact ⟨p, h1⟩
    | ok l =>
      rw [show (fetchPagesTr fetch (p :: rest)).2 =
          Event.fetchPage p :: (fetchPagesTr fetch rest).2 by
        simp only [fetchPagesTr, hfp]] at hev
      rcases List.mem_cons.mp hev with h1 | h1
      · exact ⟨p, h1⟩
      · exact ih ev h1

lemma numberRows_map_record {α : Type} (all : List α) (ts : Nat) :
    (numberRows all ts).map Row.record = all := by
  unfold numberRows
  rw [List.map_map]
  have hcomp : (Row.record ∘ fun pr : Nat × α => (⟨pr.1, pr.2, ts⟩ : Row α)) = Prod.snd := rfl
  rw [hcomp]
  exact List.map_snd_zip _ _ (by simp)

lemma numberRows_map_no {α : Type} (all : List α) (ts : Nat) :
    (numberRows all ts).map Row.no = List.range' 1 all.length := by
  unfold numberRows
  rw [List.map_map]
  have hcomp : (Row.no ∘ fun pr : Nat × α => (⟨pr.1, pr.2, ts⟩ : Row α)) = Prod.fst := rfl
  rw [hcomp]
  exact List.map_fst_zip _ _ (by simp)

lemma numberRows_ts {α : Type} (all : List α) (ts : Nat) :
    ∀ r ∈ numberRows all ts, r.ts = ts := by
  intro r hr
  unfold numberRows at hr
  rcases List.mem_map.mp hr with ⟨pr, _, hpr⟩
  rw [← hpr]

lemma numberRows_ne_nil {α : Type} {all : List α} (h : all ≠ []) (ts : Nat) :
    numberRows all ts ≠ [] := by
  intro hcon
  have h2 : ([] : List (Row α)).map Row.record = all := by
    rw [← hcon]; exact numberRows_map_record all ts
  simp only [List.map_nil] at h2
  exact h h2.symm

lemma scrapeNow_ok_char {α : Type} (fetch : Nat → Except String (List α))
    (L : Nat → List α) (n ts : Nat) (brand model : List Char) (mx : Int)
    (store : Store α) (hf : ∀ i ∈ List.range' 1 n, fetch i = Except.ok (L i)) :
    scrapeNow fetch n ts brand model mx store =
      if (((List.range' 1 n).map L).flatten).isEmpty then
        (store, Outcome.noResults,
          (List.range' 1 n).map Event.fetchPage ++
            [Event.captureTs, Event.warnNoResults])
      else
        (⟨store.files ++ [(fileName brand model mx ts,
            numberRows (((List.range' 1 n).map L).flatten) ts)],
          store.cache ++
            [mkEntry brand model mx ts (fileName brand model mx ts) store.minDefault],
          store.minDefault⟩,
          Outcome.success (numberRows (((List.range' 1 n).map L).flatten) ts)
            (fileName brand model mx ts),
          (List.range' 1 n).map Event.fetchPage ++
            [Event.captureTs, Event.writeFile, Event.insertCache]) := by
  simp only [scrapeNow, fetchPagesTr_ok fetch L _ hf]

lemma parse_int_nonneg {s : List Char} {mx : Int} (h : parse_int s = some mx) :
    0 ≤ mx := by
  unfold parse_int at h
  by_cases hemp : stripChars (removeSep s) = []
  · rw [if_pos hemp] at h
    exact absurd h (by simp)
  · rw [if_neg hemp] at h
    rcases Option.map_eq_some'.mp h with ⟨n0, _, hmax⟩
    rw [← hmax]
    exact le_max_left 0 n0

/-- C1: with every extraction call succeeding, the aggregated result is the
page lists concatenated in page order with intra-page order preserved, its
row numbers are exactly 1..len of the concatenation, every row carries the
one shared timestamp, and that timestamp is captured only after the last
page fetch in the trace. -/
theorem scrape_aggregation {α : Type} (L : Nat → List α)
    (fetch : Nat → Except String (List α)) (n ts : Nat)
    (brand model : List Char) (mx : Int) (store : Store α)
    (_hn : 1 ≤ n) (hf : ∀ i ∈ List.range' 1 n, fetch i = Except.ok (L i)) :
    (((List.range' 1 n).map L).flatten ≠ [] →
      (scrapeNow fetch n ts brand model mx store).2.1 =
        Outcome.success (numberRows (((List.range' 1 n).map L).flatten) ts)
          (fileName brand model mx ts)) ∧
    (∀ rows fn,
      (scrapeNow fetch n ts brand model mx store).2.1 = Outcome.success rows fn →
      rows.map Row.record = ((List.range' 1 n).map L).flatten ∧
      rows.map Row.no = List.range' 1 (((List.range' 1 n).map L).flatten).length ∧
      ∀ r ∈ rows, r.ts = ts) ∧
    (∃ tail, (scrapeNow fetch n ts brand model mx store).2.2 =
      (List.range' 1 n).map Event.fetchPage ++ (Event.captureTs :: tail)) := by
  have hchar := scrapeNow_ok_char fetch L n ts brand model mx store hf
  by_cases hemp : ((List.range' 1 n).map L).flatten = []
  · rw [if_pos (List.isEmpty_iff.mpr hemp)] at hchar
    refine ⟨fun hcon => absurd hemp hcon, ?_, ?_⟩
    · intro rows fn hout
      rw [hchar] at hout
      exact Outcome.noConfusion hout
    · exact ⟨[Event.warnNoResults], by rw [hchar]⟩
  · rw [if_neg (fun hc => hemp (List.isEmpty_iff.mp hc))] at hchar
    refine ⟨fun _ => by rw [hchar], ?_, ?_⟩
    · intro rows fn hout
      rw [hchar] at hout
      obtain ⟨hrows, -⟩ := Outcome.success.inj hout
      rw [← hrows]
      exact ⟨numberRows_map_record _ ts, numberRows_map_no _ ts, numberRows_ts _ ts⟩
    · exact ⟨[Event.writeFile, Event.insertCache], by rw [hchar]⟩

/-- Witness: two pages with one record each, via scrape_aggregation. -/
theorem scrape_aggregation_witness :
    (scrapeNow (fun i => Except.ok [i]) 2 99 [] [] 0 freshStore).2.1 =
      Outcome.success
        (numberRows ((((List.range' 1 2).map (fun i => [i]))).flatten) 99)
        (fileName [] [] 0 99) :=
  (scrape_aggregation (fun i => [i]) (fun i => Except.ok [i]) 2 99 [] [] 0 freshStore
    (by decide) (by decide)).1 (by decide)

/-- C3: if the extraction call for some page of the run fails, the run is
abandoned: the durable state is unchanged (no CSV file, no cache row), the
outcome is an error, and the trace holds nothing but page fetches (no
timestamp capture, no write, no cache insert). -/
theorem scrape_error_abandons {α : Type} (fetch : Nat → Except String (List α))
    (n ts : Nat) (brand model : List Char) (mx : Int) (store : Store α)
    (h : ∃ i ∈ List.range' 1 n, ∃ e, fetch i = Except.error e) :
    (scrapeNow fetch n ts brand model mx store).1 = store ∧
    (∃ msg, (scrapeNow fetch n ts brand model mx store).2.1 = Outcome.error msg) ∧
    ∀ ev ∈ (scrapeNow fetch n ts brand model mx store).2.2,
      ∃ i, ev = Event.fetchPage i := by
  rcases fetchPagesTr_error fetch _ h with ⟨msg, hmsg⟩
  have hchar : scrapeNow fetch n ts brand model mx store =
      (store, Outcome.error msg, (fetchPagesTr fetch (List.range' 1 n)).2) := by
    simp only [scrapeNow]
    rw [hmsg]
  rw [hchar]
  exact ⟨rfl, ⟨msg, rfl⟩, fetchPagesTr_trace_fetches fetch _⟩

/-- Witness: a failing single-page run leaves the store unchanged, via
scrape_error_abandons. -/
theorem scrape_error_abandons_witness :
    (scrapeNow (fun _ => Except.error ("boom")) 1 0 [] [] 0 freshStore).1 =
      freshStore :=
  (scrape_error_abandons (fun _ => Except.error ("boom")) 1 0 [] [] 0 freshStore
    ⟨1, by decide, ("boom"), rfl⟩).1

/-- C8: a completed scrape whose concatenation is empty yields the
no-results outcome, writes neither a CSV file nor a cache row (state
unchanged, no write events), and shows the user the no-results warning;
conversely, whenever a run emits a file write or cache insert, its outcome
is a success with at least one record. -/
theorem scrape_empty_no_write {α : Type} (fetch : Nat → Except String (List α))
    (n ts : Nat) (brand model : List Char) (mx : Int) (store : Store α)
    (h : ∀ i ∈ List.range' 1 n, fetch i = Except.ok ([] : List α)) :
    (scrapeNow fetch n ts brand model mx store).2.1 = Outcome.noResults ∧
    (scrapeNow fetch n ts brand model mx store).1 = store ∧
    Event.warnNoResults ∈ (scrapeNow fetch n ts brand model mx store).2.2 ∧
    Event.writeFile ∉ (scrapeNow fetch n ts brand model mx store).2.2 ∧
    Event.insertCache ∉ (scrapeNow fetch n ts brand model mx store).2.2 ∧
    ∀ (fetch2 : Nat → Except String (List α)) (n2 ts2 : Nat)
      (brand2 model2 : List Char) (mx2 : Int) (store2 : Store α),
      (Event.writeFile ∈ (scrapeNow fetch2 n2 ts2 brand2 model2 mx2 store2).2.2 ∨
        Event.insertCache ∈ (scrapeNow fetch2 n2 ts2 brand2 model2 mx2 store2).2.2) →
      ∃ rows fn,
        (scrapeNow fetch2 n2 ts2 brand2 model2 mx2 store2).2.1 =
          Outcome.success rows fn ∧ rows ≠ [] := by
  have hchar := scrapeNow_ok_char fetch (fun _ => ([] : List α)) n ts brand model mx store h
  have hemp : ((List.range' 1 n).map (fun _ => ([] : List α))).flatten = [] := by
    simp
  rw [if_pos (List.isEmpty_iff.mpr hemp)] at hchar
  rw [hchar]
  refine ⟨rfl, rfl, by simp, by simp, by simp, ?_⟩
  intro fetch2 n2 ts2 brand2 model2 mx2 store2 hev
  cases hfp : (fetchPagesTr fetch2 (List.range' 1 n2)).1 with
  | error e =>
    have hchar2 : scrapeNow fetch2 n2 ts2 brand2 model2 mx2 store2 =
        (store2, Outcome.error e, (fetchPagesTr fetch2 (List.range' 1 n2)).2) := by
      simp only [scrapeNow]
      rw [hfp]
    exfalso
    rw [hchar2] at hev
    rcases hev with hev | hev <;>
      rcases fetchPagesTr_trace_fetches fetch2 _ _ hev with ⟨i, hi⟩ <;>
      exact Event.noConfusion hi
  | ok all =>
    by_cases hempty : all.isEmpty = true
    · have hchar2 : scrapeNow fetch2 n2 ts2 brand2 model2 mx2 store2 =
          (store2, Outcome.noResults,
            (fetchPagesTr fetch2 (List.range' 1 n2)).2 ++
              [Event.captureTs, Event.warnNoResults]) := by
        simp only [scrapeNow]
        rw [hfp]
        dsimp only
        rw [if_pos hempty]
      exfalso
      rw [hchar2] at hev
      rcases hev with hev | hev <;>
        rcases List.mem_append.mp hev with h1 | h1
      · rcases fetchPagesTr_trace_fetches fetch2 _ _ h1 with ⟨i, hi⟩
        exact Event.noConfusion hi
      · simp at h1
      · rcases fetchPagesTr_trace_fetches fetch2 _ _ h1 with ⟨i, hi⟩
        exact Event.noConfusion hi
      · simp at h1
    · have hallne : all ≠ [] := fun hc => hempty (List.isEmpty_iff.mpr hc)
      have hchar2 : scrapeNow fetch2 n2 ts2 brand2 model2 mx2 store2 =
          (⟨store2.files ++ [(fileName brand2 model2 mx2 ts2, numberRows all ts2)],
            store2.cache ++ [mkEntry brand2 model2 mx2 ts2
              (fileName brand2 model2 mx2 ts2) store2.minDefault],
            store2.minDefault⟩,
            Outcome.success (numberRows all ts2) (fileName brand2 model2 mx2 ts2),
            (fetchPagesTr fetch2 (List.range' 1 n2)).2 ++
              [Event.captureTs, Event.writeFile, Event.insertCache]) := by
        simp only [scrapeNow]
        rw [hfp]
        dsimp only
        rw [if_neg hempty]
      exact ⟨numberRows all ts2, fileName brand2 model2 mx2 ts2,
        by rw [hchar2], numberRows_ne_nil hallne ts2⟩

/-- Witness: a one-page run returning no records, via scrape_empty_no_write. -/
theorem scrape_empty_no_write_witness :
    (scrapeNow (fun _ => Except.ok ([] : List Nat)) 1 0 [] [] 0 freshStore).2.1 =
      Outcome.noResults ∧
    (scrapeNow (fun _ => Except.ok ([] : List Nat)) 1 0 [] [] 0 freshStore).1 =
      freshStore :=
  have h := scrape_empty_no_write (fun _ => Except.ok ([] : List Nat)) 1 0 [] [] 0
    freshStore (by decide)
  ⟨h.1, h.2.1⟩

/-- Counterexample to C9: against a freshly created cache table, the INSERT
of a completed scrape leaves min_mileage NULL (none), not 0: the CREATE
TABLE column has no default and the INSERT omits the column. -/
theorem cache_min_null_counterexample :
    ((scrapeNow (fun _ => Except.ok [0]) 1 5 (("Perodua").toList) (("Myvi").toList)
        50000 freshStore).1.cache.map CacheEntry.min_mileage) = [none] ∧
    ¬((none : Option Int) = some 0) := by
  constructor
  · decide
  · decide

/-- C9 (amended): every cache row written by a completed scrape stores in
min_mileage the default of the schema in force: none (NULL) for a freshly
created table, 0 only when the migration added the column; the stored
max_mileage is the parsed mileage and hence nonnegative, so whenever the
default is the migrated 0 the row satisfies min_mileage less than or equal
to max_mileage. -/
theorem cache_entry_min_default {α : Type} (fetch : Nat → Except String (List α))
    (n ts : Nat) (brand model s : List Char) (mx : Int) (store : Store α)
    (rows : List (Row α)) (fn : List Char)
    (hmx : parse_int s = some mx)
    (hout : (scrapeNow fetch n ts brand model mx store).2.1 = Outcome.success rows fn) :
    (scrapeNow fetch n ts brand model mx store).1.cache =
      store.cache ++
        [mkEntry brand model mx ts (fileName brand model mx ts) store.minDefault] ∧
    (mkEntry brand model mx ts (fileName brand model mx ts)
      store.minDefault).min_mileage = store.minDefault ∧
    0 ≤ mx ∧
    (∀ v : Int, store.minDefault = some v →
      store.minDefault = minMileageDefault true → v ≤ mx) ∧
    minMileageDefault true = some 0 ∧ minMileageDefault false = none := by
  have hpos : 0 ≤ mx := parse_int_nonneg hmx
  have hcache : (scrapeNow fetch n ts brand model mx store).1.cache =
      store.cache ++
        [mkEntry brand model mx ts (fileName brand model mx ts) store.minDefault] := by
    cases hfp : (fetchPagesTr fetch (List.range' 1 n)).1 with
    | error e =>
      exfalso
      have hchar2 : scrapeNow fetch n ts brand model mx store =
          (store, Outcome.error e, (fetchPagesTr fetch (List.range' 1 n)).2) := by
        simp only [scrapeNow]
        rw [hfp]
      rw [hchar2] at hout
      exact Outcome.noConfusion hout
    | ok all =>
      by_cases hempty : all.isEmpty = true
      · exfalso
        have hchar2 : scrapeNow fetch n ts brand model mx store =
            (store, Outcome.noResults,
              (fetchPagesTr fetch (List.range' 1 n)).2 ++
                [Event.captureTs, Event.warnNoResults]) := by
          simp only [scrapeNow]
          rw [hfp]
          dsimp only
          rw [if_pos hempty]
        rw [hchar2] at hout
        exact Outcome.noConfusion hout
      · have hchar2 : scrapeNow fetch n ts brand model mx store =
            (⟨store.files ++ [(fileName brand model mx ts, numberRows all ts)],
              store.cache ++ [mkEntry brand model mx ts
                (fileName brand model mx ts) store.minDefault],
              store.minDefault⟩,
              Outcome.success (numberRows all ts) (fileName brand model mx ts),
              (fetchPagesTr fetch (List.range' 1 n)).2 ++
                [Event.captureTs, Event.writeFile, Event.insertCache]) := by
          simp only [scrapeNow]
          rw [hfp]
          dsimp only
          rw [if_neg hempty]
        rw [hchar2]
  refine ⟨hcache, rfl, hpos, ?_, rfl, rfl⟩
  intro v hv hmig
  rw [hmig] at hv
  have hv0 : v = 0 := by
    have : (some (0 : Int) : Option Int) = some v := by rw [← hv]; rfl
    exact (Option.some.inj this).symm
  rw [hv0]
  exact hpos

/-- Witness: a completed one-record scrape against the fresh store, via
cache_entry_min_default. -/
theorem cache_entry_min_default_witness :
    (scrapeNow (fun _ => Except.ok [0]) 1 5 [] [] 50000 freshStore).1.cache =
      freshStore.cache ++
        [mkEntry [] [] 50000 5 (fileName [] [] 50000 5) freshStore.minDefault] :=
  (cache_entry_min_default (fun _ => Except.ok [0]) 1 5 [] [] (("50000").toList)
    50000 freshStore (numberRows [0] 5) (fileName [] [] 50000 5)
    (by decide) (by decide)).1

end CarApp
